import Mathlib

/-
Verification development for siilo's CMIS storage backend
(src/siilo/storages/cmis.py).

The Python module is shallowly embedded as pure Lean functions:

* the CMIS repository (the external cmislib collaborator) is modelled as a
  tree of folders and documents (`Entry`), with `getObjectByPath` resolving
  a slash-separated path, `getTree().getResults()` enumerating the
  immediate children of a folder, `createFolder` / `createDocument`
  appending children, and `setContentStream` replacing a document's bytes;
* Python exceptions become an explicit error type `PyErr` threaded through
  `Except` / `Option` results;
* `CmisFile`'s mutable state (temp directory, local buffered stream,
  `has_changed`, the `cmis_object` / `cmis_obj` attributes, closed flag)
  becomes the record `FileSt`, and its methods become state-passing
  functions; close/upload additionally report how many remote resolve
  calls, upload attempts, folder creations and temp-directory removals
  they performed, so that the spec's counting properties can be stated;
* `os.path.basename`, `os.path.split` and the `'/'`-splitting of paths are
  modelled character-by-character on `List Char`.
-/

set_option autoImplicit false

namespace Siilo

/-- Bytes of file content. -/
abbrev Byte := Nat

/-- Python exceptions relevant to `cmis.py`:
`FileNotFoundError name` is siilo's error (carries the path),
`objectNotFound` is cmislib's `ObjectNotFoundException`, and
`otherError` stands for any other exception (e.g. `AttributeError`
from calling a document-only method on a folder). -/
inductive PyErr : Type where
  | fileNotFound (name : String)
  | objectNotFound
  | otherError
  deriving DecidableEq, Repr

/-- A node of the remote CMIS repository: a folder with children, or a
document with byte content. -/
inductive Entry : Type where
  | folder (name : String) (children : List Entry)
  | document (name : String) (content : List Byte)

/-- `getName()` of a CMIS object. -/
def Entry.name : Entry → String
  | .folder n _ => n
  | .document n _ => n

/-- First child with the given name, if any (the `for d in rs.getResults():
if d.getName() == dirname` scan in `_upload`). -/
def findByName (nm : String) : List Entry → Option Entry
  | [] => none
  | e :: es => if e.name = nm then some e else findByName nm es

/-- Resolution of a path, given as a list of nonempty segments, against the
children of the root folder: the model of the CMIS server's
`getObjectByPath`.  The empty segment list denotes the root folder
itself. -/
def resolveSegs : List String → List Entry → Option Entry
  | [], children => some (Entry.folder "" children)
  | seg :: rest, children =>
      match findByName seg children with
      | none => none
      | some e =>
          match rest with
          | [] => some e
          | _ :: _ =>
              match e with
              | Entry.folder _ cs => resolveSegs rest cs
              | Entry.document _ _ => none

/- ---------------------------------------------------------------------
Path handling: models of `'/'.split`, `os.path.split`, `os.path.basename`
and `os.path.join`, on character lists.
--------------------------------------------------------------------- -/

/-- Model of Python `str.split('/')`: groups of characters between
slashes. -/
def splitSlash : List Char → List (List Char)
  | [] => [[]]
  | c :: cs =>
      if c = '/' then [] :: splitSlash cs
      else
        match splitSlash cs with
        | [] => [[c]]
        | g :: gs => (c :: g) :: gs

/-- Drop empty groups and turn the rest into strings: the
`if dirname:` filter applied by `_upload` to `dirpath.split('/')`,
and the way the CMIS server treats a path as its nonempty segments. -/
def keepNonempty : List (List Char) → List String
  | [] => []
  | g :: gs => if g = [] then keepNonempty gs else String.mk g :: keepNonempty gs

/-- Nonempty slash-separated segments of a character list. -/
def segsList (cs : List Char) : List String :=
  keepNonempty (splitSlash cs)

/-- Nonempty slash-separated segments of a path string. -/
def pathSegs (s : String) : List String :=
  segsList s.data

/-- Characters after the last `'/'` (the whole list if there is no slash):
Python `os.path.basename` / the tail of `os.path.split`. -/
def afterLastSlash : List Char → List Char
  | [] => []
  | c :: cs =>
      if '/' ∈ cs then afterLastSlash cs
      else if c = '/' then cs
      else c :: cs

/-- Characters strictly before the last `'/'` (empty if there is no
slash): the head of `os.path.split`, up to trailing-slash stripping,
which is irrelevant because the head is only ever re-split on `'/'`
with empty segments dropped. -/
def beforeLastSlash : List Char → List Char
  | [] => []
  | c :: cs =>
      if '/' ∈ cs then c :: beforeLastSlash cs
      else []

/-- Model of `os.path.basename`. -/
def basenameOf (s : String) : String :=
  String.mk (afterLastSlash s.data)

/-- The final filename component used by `_upload`
(`os.path.split(self.name)[1]`). -/
def fileNameOf (s : String) : String :=
  String.mk (afterLastSlash s.data)

/-- The directory segments walked by `_upload`:
`os.path.split(self.name)[0]` split on `'/'` with empty segments
dropped. -/
def dirSegsOf (s : String) : List String :=
  segsList (beforeLastSlash s.data)

/-- The leading-slash normalization performed by `CmisFile.__init__`:
`if not name.startswith('/'): name = '/' + name`. -/
def normalizeName (s : String) : String :=
  match s.data with
  | [] => "/" ++ s
  | c :: _ => if c = '/' then s else "/" ++ s

/-- Python `c in mode` for a single character. -/
def modeHas (mode : String) (c : Char) : Bool :=
  mode.data.contains c

/- ---------------------------------------------------------------------
Filesystem path resolution, for the temp-directory sandbox property:
a path is a list of segments from the filesystem root; `normSegs`
resolves `".."`, `"."` and empty segments the way the OS does.
--------------------------------------------------------------------- -/

/-- Resolve `".."`, `"."` and empty segments of an absolute path. -/
def normSegs (segs : List String) : List String :=
  segs.foldl
    (fun acc s =>
      if s = "" ∨ s = "." then acc
      else if s = ".." then acc.dropLast
      else acc ++ [s])
    []

/-- The local path `os.path.join(self._temporary_directory,
os.path.basename(self.name))` built by `_temporary_filename`, with the
temp directory given as its list of segments `T`; the basename contains
no slash and is not absolute, so the join appends one segment. -/
def tempFilePathSegs (T : List String) (name : String) : List String :=
  T ++ [basenameOf (normalizeName name)]

/-- Where `_temporary_filename` actually points after the OS resolves
`".."`/`"."` segments. -/
def resolvedTempPath (T : List String) (name : String) : List String :=
  normSegs (tempFilePathSegs T name)

/-- `p` lies strictly inside directory `T`: the resolved directory is a
proper prefix of `p`. -/
def strictlyInside (T p : List String) : Prop :=
  normSegs T <+: p ∧ p ≠ normSegs T

/- ---------------------------------------------------------------------
The CmisStorage adapter (`CmisStorage._get_object`, `CmisStorage.delete`).
--------------------------------------------------------------------- -/

/-- The server's `repository.getObjectByPath(path)`: resolve the path's
nonempty segments against the repository tree; raise
`ObjectNotFoundException` when nothing is there. -/
def getObjectByPath (root : List Entry) (path : String) : Except PyErr Entry :=
  match resolveSegs (pathSegs path) root with
  | some e => Except.ok e
  | none => Except.error PyErr.objectNotFound

/-- `CmisStorage._get_object`: call `getObjectByPath` and translate
`ObjectNotFoundException` into siilo's `FileNotFoundError(name)`; any
other error passes through. -/
def CmisStorage.get_object (root : List Entry) (name : String) : Except PyErr Entry :=
  match getObjectByPath root name with
  | Except.ok e => Except.ok e
  | Except.error PyErr.objectNotFound => Except.error (PyErr.fileNotFound name)
  | Except.error e => Except.error e

/-- Why the cause of a `RuntimeException` raised by `obj.delete` is
irrelevant to the translation: the object may really be already gone on
the server, or the failure may have some other cause; `delete` cannot
tell them apart. -/
inductive RTCause : Type where
  | alreadyGone
  | otherCause
  deriving DecidableEq, Repr

/-- Behaviour of the external `obj.delete(allVersions=...)` call:
it may succeed, raise cmislib's `RuntimeException` (for whatever cause),
or raise some other exception. -/
inductive DelOutcome : Type where
  | ok
  | runtimeExc (cause : RTCause)
  | otherExc
  deriving DecidableEq, Repr

/-- `CmisStorage.delete`: resolve the object (translating absence to
`FileNotFoundError(name)`), then request deletion; a `RuntimeException`
from the deletion call is translated to `FileNotFoundError(name)` without
inspecting it, while any other failure propagates unmodified. -/
def CmisStorage.delete (root : List Entry) (name : String) (allVersions : Bool)
    (delBehaviour : DelOutcome) : Except PyErr Unit :=
  match CmisStorage.get_object root name with
  | Except.error e => Except.error e
  | Except.ok _ =>
      match delBehaviour with
      | DelOutcome.ok => Except.ok ()
      | DelOutcome.runtimeExc _ => Except.error (PyErr.fileNotFound name)
      | DelOutcome.otherExc => Except.error PyErr.otherError

/- ---------------------------------------------------------------------
The CmisFile handle.
--------------------------------------------------------------------- -/

/-- The mutable state of a `CmisFile` handle:
`name` is the normalized remote path, `mode` the Python mode string,
`cmis_object` the attribute documented in the class docstring
(initialized to `None` in `__init__`), `cmis_obj` the attribute assigned
by `_download` and `_upload`, `has_changed` the dirty flag,
`localBytes`/`pos` the contents and position of the local buffered
stream on the temp file, `streamClosed` the local stream's closed flag
(which is what the `closed` property reads), and `tempDirPresent`
whether the private temp directory still exists on disk. -/
structure FileSt : Type where
  name : String
  mode : String
  cmis_object : Option Entry
  cmis_obj : Option Entry
  has_changed : Bool
  localBytes : List Byte
  pos : Nat
  streamClosed : Bool
  tempDirPresent : Bool

/-- cmislib's `getContentStream()` yields the document's bytes as a lazy
sequence of chunks; the model returns them as a single chunk. -/
def contentChunks (content : List Byte) : List (List Byte) :=
  [content]

/-- The download loop of `_download`: append each arriving chunk to the
local file, in order. -/
def writeChunks (chunks : List (List Byte)) : List Byte :=
  chunks.foldl (fun acc c => acc ++ c) []

/-- `CmisFile._download`: open the temp file for exclusive binary write
(truncating it to empty), resolve the remote object, and stream its
content chunks into the temp file.  Returns the downloaded bytes and the
resolved object (assigned to `cmis_obj`).  A folder has no
`getContentStream`, so resolving to a folder raises an `AttributeError`,
modelled as `otherError`. -/
def CmisFile.download (root : List Entry) (name : String) :
    Except PyErr (List Byte × Entry) :=
  match CmisStorage.get_object root name with
  | Except.error e => Except.error e
  | Except.ok obj =>
      match obj with
      | Entry.document n c =>
          Except.ok (writeChunks (contentChunks c), Entry.document n c)
      | Entry.folder _ _ => Except.error PyErr.otherError

/-- `CmisStorage.open` / `CmisFile.__init__` / `CmisFile._open`:
normalize the name, derive `should_download` (`'r' in mode or 'a' in
mode`) and the initial `has_changed` (`'w' in mode`), create the temp
directory, optionally download (swallowing `FileNotFoundError` and
setting `has_changed` when `'a' in mode`), then open the local stream on
the temp file with the requested mode (append modes position at the end,
other modes at the start).  The second component counts the remote
resolve (`getObjectByPath`) calls performed. -/
def CmisStorage.openFile (root : List Entry) (name0 mode : String) :
    Except PyErr FileSt × Nat :=
  let name := normalizeName name0
  let should_download := modeHas mode 'r' || modeHas mode 'a'
  let has_changed0 := modeHas mode 'w'
  if should_download then
    match CmisFile.download root name with
    | Except.ok (bytes, obj) =>
        (Except.ok
          { name := name, mode := mode, cmis_object := none,
            cmis_obj := some obj, has_changed := has_changed0,
            localBytes := bytes,
            pos := if modeHas mode 'a' then bytes.length else 0,
            streamClosed := false, tempDirPresent := true }, 1)
    | Except.error (PyErr.fileNotFound n) =>
        if modeHas mode 'a' then
          (Except.ok
            { name := name, mode := mode, cmis_object := none,
              cmis_obj := none, has_changed := true,
              localBytes := [], pos := 0,
              streamClosed := false, tempDirPresent := true }, 1)
        else (Except.error (PyErr.fileNotFound n), 1)
    | Except.error e => (Except.error e, 1)
  else
    (Except.ok
      { name := name, mode := mode, cmis_object := none,
        cmis_obj := none, has_changed := has_changed0,
        localBytes := [], pos := 0,
        streamClosed := false, tempDirPresent := true }, 0)

/-- `CmisFile.write`: set `has_changed` and delegate to the local stream;
append-mode streams always write at the end, other modes overwrite at
the current position. -/
def CmisFile.write (st : FileSt) (data : List Byte) : FileSt :=
  let appendMode := modeHas st.mode 'a'
  let newBytes :=
    if appendMode then st.localBytes ++ data
    else st.localBytes.take st.pos ++ data
          ++ st.localBytes.drop (st.pos + data.length)
  { st with has_changed := true, localBytes := newBytes,
            pos := if appendMode then newBytes.length
                   else st.pos + data.length }

/-- `CmisFile.read`: read the local stream from the current position to
the end, leaving the position at the end. -/
def CmisFile.read (st : FileSt) : List Byte × FileSt :=
  (st.localBytes.drop st.pos, { st with pos := st.localBytes.length })

/-- Replace the first entry named `nm` by what `f` makes of it; `none`
if no entry is named `nm` or `f` fails on it. -/
def updFirst (nm : String) (f : Entry → Option Entry) :
    List Entry → Option (List Entry)
  | [] => none
  | e :: es =>
      if e.name = nm then (f e).map (fun e' => e' :: es)
      else (updFirst nm f es).map (fun es' => e :: es')

/-- Replacing a document's bytes: `setContentStream` succeeds only on a
document. -/
def setDoc (B : List Byte) (e : Entry) : Option Entry :=
  match e with
  | Entry.document n _ => some (Entry.document n B)
  | Entry.folder _ _ => none

/-- The server-side effect of `setContentStream` on the object that
`getObjectByPath` resolved: replace the content of the document reached
by the same first-match traversal.  `none` when the traversal does not
end at a document (a folder has no `setContentStream`). -/
def setAt (B : List Byte) : List String → List Entry → Option (List Entry)
  | [], _ => none
  | [seg], children => updFirst seg (setDoc B) children
  | seg :: r :: rs, children =>
      updFirst seg
        (fun e =>
          match e with
          | Entry.folder n cs =>
              (setAt B (r :: rs) cs).map (fun cs' => Entry.folder n cs')
          | Entry.document _ _ => none)
        children

/-- The folder-walking loop of `_upload`'s create branch: for each
directory segment in order, scan the current folder's immediate children
for one with that exact name; descend into it if found, otherwise create
a child folder with that name and descend into it; finally create the
document under the last folder.  Returns the new children of the folder
the walk started from together with the number of `createFolder` calls
issued.  A child matched by name that is a document makes the next
folder operation raise (`otherError`). -/
def createWalk (B : List Byte) (filename : String) :
    List String → List Entry → Except PyErr (List Entry × Nat)
  | [], children =>
      Except.ok (children ++ [Entry.document filename B], 0)
  | seg :: rest, children =>
      match findByName seg children with
      | some (Entry.folder n cs) =>
          match createWalk B filename rest cs with
          | Except.ok (cs', k) =>
              match updFirst seg (fun _ => some (Entry.folder n cs')) children with
              | some children' => Except.ok (children', k)
              | none => Except.error PyErr.otherError
          | Except.error e => Except.error e
      | some (Entry.document _ _) => Except.error PyErr.otherError
      | none =>
          match createWalk B filename rest [] with
          | Except.ok (cs', k) =>
              Except.ok (children ++ [Entry.folder seg cs'], k + 1)
          | Except.error e => Except.error e

/-- Outcome of `CmisFile._upload`: the repository tree afterwards, the
value assigned to `cmis_obj` (if the assignment was reached), the
exception that propagated (if any), and the number of `createFolder`
calls issued. -/
structure UpOut : Type where
  root : List Entry
  objUpd : Option Entry
  err : Option PyErr
  folderCreates : Nat

/-- `CmisFile._upload`: open the temp file for binary read, try to
resolve the remote object (one `_get_object` call); if it resolves,
assign it to `cmis_obj` and replace its content stream with the local
bytes (a folder makes this raise); if resolution raises
`FileNotFoundError`, run the folder-creation walk from the repository
root and create the document with the local bytes, assigning the created
document to `cmis_obj`. -/
def CmisFile.upload (root : List Entry) (name : String) (B : List Byte) : UpOut :=
  match CmisStorage.get_object root name with
  | Except.ok (Entry.document n c) =>
      match setAt B (pathSegs name) root with
      | some root' =>
          { root := root', objUpd := some (Entry.document n c),
            err := none, folderCreates := 0 }
      | none =>
          { root := root, objUpd := some (Entry.document n c),
            err := some PyErr.otherError, folderCreates := 0 }
  | Except.ok (Entry.folder n cs) =>
      { root := root, objUpd := some (Entry.folder n cs),
        err := some PyErr.otherError, folderCreates := 0 }
  | Except.error (PyErr.fileNotFound _) =>
      match createWalk B (fileNameOf name) (dirSegsOf name) root with
      | Except.ok (root', k) =>
          { root := root', objUpd := some (Entry.document (fileNameOf name) B),
            err := none, folderCreates := k }
      | Except.error e =>
          { root := root, objUpd := none, err := some e, folderCreates := 0 }
  | Except.error e =>
      { root := root, objUpd := none, err := some e, folderCreates := 0 }

/-- Outcome of `CmisFile.close`: repository tree, handle state, the
exception that propagated (if any), and how many remote resolves, upload
attempts and temp-directory removals this call performed. -/
structure CloseOut : Type where
  root : List Entry
  st : FileSt
  err : Option PyErr
  resolves : Nat
  uploads : Nat
  rmtrees : Nat

/-- `CmisFile.close`: nothing happens when the handle is already closed;
otherwise close the local stream, run `_upload` if `has_changed`, and
remove the temp directory — but, exactly as in the source, the removal
is only reached when `_upload` did not raise, because `close` has no
try/finally around the upload. -/
def CmisFile.close (root : List Entry) (st : FileSt) : CloseOut :=
  if st.streamClosed then
    { root := root, st := st, err := none,
      resolves := 0, uploads := 0, rmtrees := 0 }
  else
    let st1 := { st with streamClosed := true }
    if st1.has_changed then
      let u := CmisFile.upload root st1.name st1.localBytes
      let st2 :=
        match u.objUpd with
        | some o => { st1 with cmis_obj := some o }
        | none => st1
      match u.err with
      | some e =>
          { root := u.root, st := st2, err := some e,
            resolves := 1, uploads := 1, rmtrees := 0 }
      | none =>
          { root := u.root, st := { st2 with tempDirPresent := false },
            err := none, resolves := 1, uploads := 1, rmtrees := 1 }
    else
      { root := root, st := { st1 with tempDirPresent := false },
        err := none, resolves := 0, uploads := 0, rmtrees := 1 }

/-- Length of the maximal prefix of the segment list that already exists
as a chain of folders: the segments for which the creation walk finds an
existing child folder to descend into. -/
def existingPrefixLen : List String → List Entry → Nat
  | [], _ => 0
  | seg :: rest, children =>
      match findByName seg children with
      | some (Entry.folder _ cs) => existingPrefixLen rest cs + 1
      | _ => 0

/- ---------------------------------------------------------------------
Lemmas about path splitting.
--------------------------------------------------------------------- -/

lemma splitSlash_ne_nil (cs : List Char) : splitSlash cs ≠ [] := by
  induction cs with
  | nil => simp [splitSlash]
  | cons c cs ih =>
      simp only [splitSlash]
      split
      · simp
      · split
        · simp
        · simp

lemma splitSlash_append (xs ys : List Char) :
    splitSlash (xs ++ '/' :: ys) = splitSlash xs ++ splitSlash ys := by
  induction xs with
  | nil => simp [splitSlash]
  | cons c xs ih =>
      by_cases hc : c = '/'
      · subst hc
        simp [splitSlash, ih]
      · obtain ⟨g, gs, hx⟩ := List.exists_cons_of_ne_nil (splitSlash_ne_nil xs)
        simp [splitSlash, hc, ih, hx]

lemma keepNonempty_append (a b : List (List Char)) :
    keepNonempty (a ++ b) = keepNonempty a ++ keepNonempty b := by
  induction a with
  | nil => simp [keepNonempty]
  | cons g gs ih =>
      by_cases hg : g = []
      · simp [keepNonempty, hg, ih]
      · simp [keepNonempty, hg, ih]

lemma segsList_append (xs ys : List Char) :
    segsList (xs ++ '/' :: ys) = segsList xs ++ segsList ys := by
  simp [segsList, splitSlash_append, keepNonempty_append]

lemma splitSlash_of_not_mem (cs : List Char) (h : '/' ∉ cs) :
    splitSlash cs = [cs] := by
  induction cs with
  | nil => simp [splitSlash]
  | cons c cs ih =>
      have hc : c ≠ '/' := by
        intro hc; exact h (by simp [hc])
      have hcs : '/' ∉ cs := by
        intro hm; exact h (by simp [hm])
      simp only [splitSlash, if_neg hc, ih hcs]

lemma segsList_of_not_mem (cs : List Char) (h : '/' ∉ cs) (hne : cs ≠ []) :
    segsList cs = [String.mk cs] := by
  simp [segsList, splitSlash_of_not_mem cs h, keepNonempty, hne]

lemma not_mem_afterLastSlash (cs : List Char) : '/' ∉ afterLastSlash cs := by
  induction cs with
  | nil => simp [afterLastSlash]
  | cons c cs ih =>
      by_cases hm : '/' ∈ cs
      · simp only [afterLastSlash, if_pos hm]; exact ih
      · by_cases hc : c = '/'
        · simp only [afterLastSlash, if_neg hm, if_pos hc]; exact hm
        · simp only [afterLastSlash, if_neg hm, if_neg hc]
          intro h
          rcases List.mem_cons.mp h with h | h
          · exact hc h.symm
          · exact hm h

lemma before_after_decomp (cs : List Char) (h : '/' ∈ cs) :
    beforeLastSlash cs ++ '/' :: afterLastSlash cs = cs := by
  induction cs with
  | nil => cases h
  | cons c cs ih =>
      by_cases hm : '/' ∈ cs
      · simp [beforeLastSlash, afterLastSlash, hm, ih hm]
      · have hc : c = '/' := by
          rcases List.mem_cons.mp h with h | h
          · exact h.symm
          · exact absurd h hm
        simp [beforeLastSlash, afterLastSlash, if_neg hm, hc]

lemma after_of_not_mem (cs : List Char) (h : '/' ∉ cs) :
    afterLastSlash cs = cs ∧ beforeLastSlash cs = [] := by
  cases cs with
  | nil => simp [afterLastSlash, beforeLastSlash]
  | cons c cs =>
      have hc : c ≠ '/' := by
        intro hc; exact h (by simp [hc])
      have hcs : '/' ∉ cs := by
        intro hm; exact h (by simp [hm])
      simp [afterLastSlash, beforeLastSlash, if_neg hcs, if_neg hc]

/-- The segments of a path are its directory segments followed by its
final filename, whenever the final filename is nonempty. -/
lemma segsList_decomp (cs : List Char) (h : afterLastSlash cs ≠ []) :
    segsList cs = segsList (beforeLastSlash cs) ++ [String.mk (afterLastSlash cs)] := by
  by_cases hm : '/' ∈ cs
  · conv_lhs => rw [← before_after_decomp cs hm]
    rw [segsList_append]
    rw [segsList_of_not_mem _ (not_mem_afterLastSlash cs) h]
  · obtain ⟨ha, hb⟩ := after_of_not_mem cs hm
    rw [ha, hb]
    have hne : cs ≠ [] := ha ▸ h
    rw [segsList_of_not_mem cs hm hne]
    simp [segsList, splitSlash, keepNonempty]

/-- `pathSegs` of a name splits as the directory segments walked by
`_upload` followed by the filename it creates. -/
lemma pathSegs_decomp (s : String) (h : afterLastSlash s.data ≠ []) :
    pathSegs s = dirSegsOf s ++ [fileNameOf s] := by
  exact segsList_decomp s.data h

/- ---------------------------------------------------------------------
Lemmas about the repository tree.
--------------------------------------------------------------------- -/

lemma findByName_name (nm : String) (l : List Entry) (e : Entry)
    (h : findByName nm l = some e) : e.name = nm := by
  induction l with
  | nil => exact absurd h (by simp [findByName])
  | cons x xs ih =>
      by_cases hx : x.name = nm
      · rw [findByName, if_pos hx] at h
        cases h
        exact hx
      · rw [findByName, if_neg hx] at h
        exact ih h

lemma findByName_append_last (nm : String) (l : List Entry) (e : Entry)
    (h : findByName nm l = none) (he : e.name = nm) :
    findByName nm (l ++ [e]) = some e := by
  induction l with
  | nil => simp [findByName, he]
  | cons x xs ih =>
      by_cases hx : x.name = nm
      · rw [findByName, if_pos hx] at h
        cases h
      · rw [findByName, if_neg hx] at h
        simp only [List.cons_append, findByName, if_neg hx]
        exact ih h

lemma updFirst_found (nm : String) (f : Entry → Option Entry)
    (l : List Entry) (e e' : Entry)
    (h : findByName nm l = some e) (hf : f e = some e') (hn : e'.name = nm) :
    ∃ l', updFirst nm f l = some l' ∧ findByName nm l' = some e' := by
  induction l with
  | nil => exact absurd h (by simp [findByName])
  | cons x xs ih =>
      by_cases hx : x.name = nm
      · rw [findByName, if_pos hx] at h
        cases h
        refine ⟨e' :: xs, ?_, ?_⟩
        · rw [updFirst, if_pos hx, hf]
          rfl
        · rw [findByName, if_pos hn]
      · rw [findByName, if_neg hx] at h
        obtain ⟨l', hl', hfind⟩ := ih h
        refine ⟨x :: l', ?_, ?_⟩
        · rw [updFirst, if_neg hx, hl']
          rfl
        · rw [findByName, if_neg hx]
          exact hfind

lemma resolveSegs_nil_children (seg : String) (rest : List String) :
    resolveSegs (seg :: rest) [] = none := by
  simp [resolveSegs, findByName]

lemma existingPrefixLen_nil (segs : List String) :
    existingPrefixLen segs [] = 0 := by
  cases segs with
  | nil => rfl
  | cons seg rest => simp [existingPrefixLen, findByName]

/-- Replacing the content of the document that a path resolves to
succeeds and makes the same path resolve to the document with the new
content. -/
lemma setAt_found (B : List Byte) (segs : List String) :
    ∀ (children : List Entry) (n : String) (c : List Byte),
      resolveSegs segs children = some (Entry.document n c) →
      ∃ children', setAt B segs children = some children' ∧
        resolveSegs segs children' = some (Entry.document n B) := by
  induction segs with
  | nil =>
      intro children n c h
      exact absurd h (by simp [resolveSegs])
  | cons seg rest ih =>
      intro children n c h
      cases hf : findByName seg children with
      | none =>
          simp only [resolveSegs, hf] at h
          exact Option.noConfusion h
      | some e =>
          cases rest with
          | nil =>
              simp only [resolveSegs, hf] at h
              cases h
              have hn : n = seg := findByName_name seg children _ hf
              obtain ⟨l', hl', hfind⟩ :=
                updFirst_found seg (setDoc B)
                  children (Entry.document n c) (Entry.document n B) hf rfl hn
              refine ⟨l', hl', ?_⟩
              simp only [resolveSegs, hfind]
          | cons r rs =>
              simp only [resolveSegs, hf] at h
              cases e with
              | document m d => simp at h
              | folder m cs =>
                  have hm : m = seg := findByName_name seg children _ hf
                  obtain ⟨cs', hcs', hres⟩ := ih cs n c h
                  obtain ⟨l', hl', hfind⟩ :=
                    updFirst_found seg
                      (fun e =>
                        match e with
                        | Entry.folder n cs =>
                            (setAt B (r :: rs) cs).map (fun cs' => Entry.folder n cs')
                        | Entry.document _ _ => none)
                      children (Entry.folder m cs) (Entry.folder m cs') hf
                      (by simp [hcs']) hm
                  refine ⟨l', hl', ?_⟩
                  simp only [resolveSegs, hfind]
                  exact hres

/-- The folder-creation walk of `_upload`, on a path that does not
resolve: it issues exactly one `createFolder` per missing segment and
none for existing segments, and afterwards the path resolves to the
created document carrying the uploaded bytes. -/
lemma createWalk_found (B : List Byte) (filename : String) (segs : List String) :
    ∀ (children : List Entry),
      resolveSegs (segs ++ [filename]) children = none →
      ∀ out k, createWalk B filename segs children = Except.ok (out, k) →
        k = segs.length - existingPrefixLen segs children ∧
        resolveSegs (segs ++ [filename]) out
          = some (Entry.document filename B) := by
  induction segs with
  | nil =>
      intro children h out k hcw
      have hfind : findByName filename children = none := by
        by_contra hne
        obtain ⟨e, he⟩ := Option.ne_none_iff_exists'.mp hne
        simp only [List.nil_append, resolveSegs, he] at h
        exact Option.noConfusion h
      rw [createWalk] at hcw
      cases hcw
      constructor
      · rfl
      · have hf2 := findByName_append_last filename children
          (Entry.document filename B) hfind rfl
        simp only [List.nil_append, resolveSegs, hf2]
  | cons seg rest ih =>
      intro children h out k hcw
      have hne2 : rest ++ [filename] ≠ [] := by simp
      obtain ⟨a, as, hr⟩ := List.exists_cons_of_ne_nil hne2
      cases hf : findByName seg children with
      | none =>
          simp only [createWalk, hf] at hcw
          cases hcw' : createWalk B filename rest ([] : List Entry) with
          | error e =>
              simp only [hcw'] at hcw
              exact Except.noConfusion hcw
          | ok p =>
              obtain ⟨cs', k'⟩ := p
              simp only [hcw'] at hcw
              cases hcw
              have hres : resolveSegs (rest ++ [filename]) ([] : List Entry) = none := by
                rw [hr]; exact resolveSegs_nil_children a as
              obtain ⟨hk, hresolve⟩ := ih [] hres cs' k' hcw'
              have h0 : existingPrefixLen (seg :: rest) children = 0 := by
                rw [existingPrefixLen, hf]
              constructor
              · rw [hk, existingPrefixLen_nil, h0]
                simp [List.length_cons]
              · have hf2 := findByName_append_last seg children
                  (Entry.folder seg cs') hf rfl
                rw [hr] at hresolve
                rw [List.cons_append, hr]
                simp only [resolveSegs, hf2]
                exact hresolve
      | some e =>
          cases e with
          | document m d =>
              simp only [createWalk, hf] at hcw
              exact Except.noConfusion hcw
          | folder m cs =>
              have hm : m = seg := findByName_name seg children _ hf
              simp only [createWalk, hf] at hcw
              cases hcw' : createWalk B filename rest cs with
              | error e =>
                  simp only [hcw'] at hcw
                  exact Except.noConfusion hcw
              | ok p =>
                  obtain ⟨cs', k'⟩ := p
                  simp only [hcw'] at hcw
                  have hres : resolveSegs (rest ++ [filename]) cs = none := by
                    rw [List.cons_append, hr] at h
                    simp only [resolveSegs, hf] at h
                    rw [hr]
                    exact h
                  obtain ⟨hk, hresolve⟩ := ih cs hres cs' k' hcw'
                  obtain ⟨children', hupd, hfind'⟩ :=
                    updFirst_found seg (fun _ => some (Entry.folder m cs'))
                      children (Entry.folder m cs) (Entry.folder m cs') hf rfl hm
                  simp only [hupd] at hcw
                  cases hcw
                  have h1 : existingPrefixLen (seg :: rest) children
                      = existingPrefixLen rest cs + 1 := by
                    rw [existingPrefixLen, hf]
                  constructor
                  · rw [hk, h1]
                    simp only [List.length_cons]
                    omega
                  · rw [hr] at hresolve
                    rw [List.cons_append, hr]
                    simp only [resolveSegs, hfind']
                    exact hresolve

/-- `_get_object` in terms of path resolution. -/
lemma get_object_eq (root : List Entry) (name : String) :
    CmisStorage.get_object root name
      = match resolveSegs (pathSegs name) root with
        | some e => Except.ok e
        | none => Except.error (PyErr.fileNotFound name) := by
  cases h : resolveSegs (pathSegs name) root <;>
    simp [CmisStorage.get_object, getObjectByPath, h]

/-- Appending a normal segment to a path commutes with `".."`/`"."`
resolution. -/
lemma normSegs_append_normal (l : List String) (b : String)
    (h0 : b ≠ "") (h1 : b ≠ ".") (h2 : b ≠ "..") :
    normSegs (l ++ [b]) = normSegs l ++ [b] := by
  unfold normSegs
  rw [List.foldl_append]
  simp [h0, h1, h2]

/-- `_get_object` either returns the resolved entry or raises
`FileNotFoundError(name)`. -/
lemma get_object_cases (root : List Entry) (name : String) :
    (∃ e, resolveSegs (pathSegs name) root = some e ∧
        CmisStorage.get_object root name = Except.ok e)
    ∨ (resolveSegs (pathSegs name) root = none ∧
        CmisStorage.get_object root name
          = Except.error (PyErr.fileNotFound name)) := by
  cases h : resolveSegs (pathSegs name) root with
  | none =>
      right
      exact ⟨rfl, by rw [get_object_eq, h]⟩
  | some e =>
      left
      exact ⟨e, rfl, by rw [get_object_eq, h]⟩

/-- Streaming a single chunk writes exactly its bytes. -/
lemma writeChunks_single (c : List Byte) :
    writeChunks (contentChunks c) = c := by
  simp [writeChunks, contentChunks]

/-- `close` on an open, changed handle propagates exactly `_upload`'s
exception. -/
lemma close_changed_err (root : List Entry) (st : FileSt)
    (h1 : st.streamClosed = false) (h2 : st.has_changed = true) :
    (CmisFile.close root st).err
      = (CmisFile.upload root st.name st.localBytes).err := by
  cases hu : (CmisFile.upload root st.name st.localBytes).err <;>
    simp [CmisFile.close, h1, h2, hu]

/-- `close` on an open, changed handle leaves the repository as
`_upload` left it. -/
lemma close_changed_root (root : List Entry) (st : FileSt)
    (h1 : st.streamClosed = false) (h2 : st.has_changed = true) :
    (CmisFile.close root st).root
      = (CmisFile.upload root st.name st.localBytes).root := by
  cases hu : (CmisFile.upload root st.name st.localBytes).err <;>
    simp [CmisFile.close, h1, h2, hu]

/-- `close` on an open, changed handle makes exactly one remote resolve
attempt. -/
lemma close_changed_resolves (root : List Entry) (st : FileSt)
    (h1 : st.streamClosed = false) (h2 : st.has_changed = true) :
    (CmisFile.close root st).resolves = 1 := by
  cases hu : (CmisFile.upload root st.name st.localBytes).err <;>
    simp [CmisFile.close, h1, h2, hu]

/-- When the remote path does not resolve and `_upload` does not raise,
its creation branch has run: the path afterwards resolves to a document
named after the path's final filename and carrying the uploaded
bytes. -/
lemma upload_creates (root : List Entry) (name : String) (B : List Byte)
    (hres : resolveSegs (pathSegs name) root = none)
    (hfn : afterLastSlash name.data ≠ [])
    (hok : (CmisFile.upload root name B).err = none) :
    resolveSegs (pathSegs name) (CmisFile.upload root name B).root
      = some (Entry.document (fileNameOf name) B) := by
  have hget : CmisStorage.get_object root name
      = Except.error (PyErr.fileNotFound name) := by
    rw [get_object_eq, hres]
  cases hcw : createWalk B (fileNameOf name) (dirSegsOf name) root with
  | error e =>
      have hbad : (CmisFile.upload root name B).err = some e := by
        simp only [CmisFile.upload, hget, hcw]
      rw [hbad] at hok
      exact Option.noConfusion hok
  | ok p =>
      obtain ⟨root', k⟩ := p
      have hmiss : resolveSegs (dirSegsOf name ++ [fileNameOf name]) root = none := by
        rw [← pathSegs_decomp name hfn]
        exact hres
      obtain ⟨hk, hres'⟩ :=
        createWalk_found B (fileNameOf name) (dirSegsOf name) root hmiss root' k hcw
      have hup : (CmisFile.upload root name B).root = root' := by
        simp only [CmisFile.upload, hget, hcw]
      rw [hup, pathSegs_decomp name hfn]
      exact hres'

/-- Whenever `_upload` does not raise, the remote path afterwards
resolves to a document carrying the uploaded bytes. -/
lemma upload_ok_resolve (root : List Entry) (name : String) (B : List Byte)
    (hfn : afterLastSlash name.data ≠ [])
    (hok : (CmisFile.upload root name B).err = none) :
    ∃ n, resolveSegs (pathSegs name) (CmisFile.upload root name B).root
      = some (Entry.document n B) := by
  rcases get_object_cases root name with ⟨e, hres, hget⟩ | ⟨hres, hget⟩
  · cases e with
    | folder n cs =>
        have hbad : (CmisFile.upload root name B).err = some PyErr.otherError := by
          simp only [CmisFile.upload, hget]
        rw [hbad] at hok
        exact Option.noConfusion hok
    | document n c =>
        cases hset : setAt B (pathSegs name) root with
        | none =>
            have hbad : (CmisFile.upload root name B).err = some PyErr.otherError := by
              simp only [CmisFile.upload, hget, hset]
            rw [hbad] at hok
            exact Option.noConfusion hok
        | some root' =>
            obtain ⟨root'', hset', hres'⟩ := setAt_found B (pathSegs name) root n c hres
            rw [hset] at hset'
            injection hset' with h2
            have hup : (CmisFile.upload root name B).root = root' := by
              simp only [CmisFile.upload, hget, hset]
            refine ⟨n, ?_⟩
            rw [hup, h2]
            exact hres'
  · exact ⟨fileNameOf name, upload_creates root name B hres hfn hok⟩

/-- Opening in a mode with neither `'r'` nor `'a'` downloads nothing and
makes no remote resolve call. -/
lemma openFile_no_download (root : List Entry) (name0 mode : String)
    (hr : modeHas mode 'r' = false) (ha : modeHas mode 'a' = false) :
    CmisStorage.openFile root name0 mode
      = (Except.ok
          { name := normalizeName name0, mode := mode, cmis_object := none,
            cmis_obj := none, has_changed := modeHas mode 'w',
            localBytes := [], pos := 0,
            streamClosed := false, tempDirPresent := true }, 0) := by
  simp [CmisStorage.openFile, hr, ha]

/-- Downloading a missing path raises `FileNotFoundError` with the
path. -/
lemma download_missing (root : List Entry) (name : String)
    (h : resolveSegs (pathSegs name) root = none) :
    CmisFile.download root name = Except.error (PyErr.fileNotFound name) := by
  have hget : CmisStorage.get_object root name
      = Except.error (PyErr.fileNotFound name) := by
    rw [get_object_eq, h]
  simp [CmisFile.download, hget]

/-- Downloading a path that resolves to a document yields its bytes. -/
lemma download_document (root : List Entry) (name n : String) (c : List Byte)
    (h : resolveSegs (pathSegs name) root = some (Entry.document n c)) :
    CmisFile.download root name = Except.ok (c, Entry.document n c) := by
  have hget : CmisStorage.get_object root name
      = Except.ok (Entry.document n c) := by
    rw [get_object_eq, h]
  simp [CmisFile.download, hget, writeChunks_single]

/-- Opening a missing path in a mode with `'r'` but not `'a'` propagates
`FileNotFoundError` with the normalized path. -/
lemma openFile_read_missing (root : List Entry) (name0 mode : String)
    (hr : modeHas mode 'r' = true) (ha : modeHas mode 'a' = false)
    (h : resolveSegs (pathSegs (normalizeName name0)) root = none) :
    CmisStorage.openFile root name0 mode
      = (Except.error (PyErr.fileNotFound (normalizeName name0)), 1) := by
  have hdl := download_missing root (normalizeName name0) h
  simp [CmisStorage.openFile, hr, ha, hdl]

/-- Opening a missing path in a mode with `'a'` swallows the error and
marks the handle changed, with an empty local file. -/
lemma openFile_append_missing (root : List Entry) (name0 mode : String)
    (ha : modeHas mode 'a' = true)
    (h : resolveSegs (pathSegs (normalizeName name0)) root = none) :
    CmisStorage.openFile root name0 mode
      = (Except.ok
          { name := normalizeName name0, mode := mode, cmis_object := none,
            cmis_obj := none, has_changed := true,
            localBytes := [], pos := 0,
            streamClosed := false, tempDirPresent := true }, 1) := by
  have hdl := download_missing root (normalizeName name0) h
  simp [CmisStorage.openFile, ha, hdl]

/-- Opening a path that resolves to a document, in a downloading mode,
buffers the document's bytes locally and caches the object in
`cmis_obj`. -/
lemma openFile_download_document (root : List Entry) (name0 mode n : String)
    (c : List Byte)
    (hsd : (modeHas mode 'r' || modeHas mode 'a') = true)
    (h : resolveSegs (pathSegs (normalizeName name0)) root
        = some (Entry.document n c)) :
    CmisStorage.openFile root name0 mode
      = (Except.ok
          { name := normalizeName name0, mode := mode, cmis_object := none,
            cmis_obj := some (Entry.document n c),
            has_changed := modeHas mode 'w',
            localBytes := c,
            pos := if modeHas mode 'a' then c.length else 0,
            streamClosed := false, tempDirPresent := true }, 1) := by
  have hdl := download_document root (normalizeName name0) n c h
  simp [CmisStorage.openFile, hsd, hdl]

/-- `write` closes nothing. -/
lemma write_streamClosed (st : FileSt) (B : List Byte) :
    (CmisFile.write st B).streamClosed = st.streamClosed := rfl

/-- `write` always sets the dirty flag. -/
lemma write_has_changed (st : FileSt) (B : List Byte) :
    (CmisFile.write st B).has_changed = true := rfl

/-- `write` does not change the remote path. -/
lemma write_name (st : FileSt) (B : List Byte) :
    (CmisFile.write st B).name = st.name := rfl

/-- Writing into an empty local file leaves exactly the written bytes,
in any mode. -/
lemma write_localBytes_fresh (st : FileSt) (B : List Byte)
    (hb : st.localBytes = []) :
    (CmisFile.write st B).localBytes = B := by
  by_cases ha : modeHas st.mode 'a' <;> simp [CmisFile.write, ha, hb]

/- ---------------------------------------------------------------------
The claims.
--------------------------------------------------------------------- -/

/-- C1: the claim says temp-directory cleanup is never skipped because of
an upload failure; the code violates it.  Concrete run: the remote store
has a folder at `/a`; a handle opened at `"a"` in mode `"w"` is written
and closed; `_upload` resolves the folder and `setContentStream` raises,
and `close` — having no try/finally — skips `_remove_temporary_directory`:
the error propagates, the temp directory is still present, and zero
rmtree calls were made. -/
theorem c1_upload_error_skips_cleanup :
    (CmisStorage.openFile [Entry.folder "a" []] "a" "w").1
      = Except.ok
          { name := "/a", mode := "w", cmis_object := none, cmis_obj := none,
            has_changed := true, localBytes := [], pos := 0,
            streamClosed := false, tempDirPresent := true }
    ∧ (CmisFile.close [Entry.folder "a" []]
        (CmisFile.write
          { name := "/a", mode := "w", cmis_object := none, cmis_obj := none,
            has_changed := true, localBytes := [], pos := 0,
            streamClosed := false, tempDirPresent := true } [7])).err
      = some PyErr.otherError
    ∧ (CmisFile.close [Entry.folder "a" []]
        (CmisFile.write
          { name := "/a", mode := "w", cmis_object := none, cmis_obj := none,
            has_changed := true, localBytes := [], pos := 0,
            streamClosed := false, tempDirPresent := true } [7])).st.tempDirPresent
      = true
    ∧ (CmisFile.close [Entry.folder "a" []]
        (CmisFile.write
          { name := "/a", mode := "w", cmis_object := none, cmis_obj := none,
            has_changed := true, localBytes := [], pos := 0,
            streamClosed := false, tempDirPresent := true } [7])).rmtrees
      = 0 :=
  ⟨rfl, rfl, rfl, rfl⟩

/-- C2: the claim says the documented `cmis_object` field holds the
last-resolved remote object after any successful download; the code
violates it.  Concrete run: opening an existing document in mode `"r"`
downloads successfully, yet `cmis_object` is still `None` — `_download`
assigned the resolved object to the differently-spelled attribute
`cmis_obj` instead. -/
theorem c2_cmis_object_never_assigned :
    ((CmisStorage.openFile [Entry.document "some_file.txt" [104]]
        "some_file.txt" "r").1.toOption.map
      (fun st => (st.cmis_object, st.cmis_obj)))
      = some (none, some (Entry.document "some_file.txt" [104])) := rfl

/-- C3: for every remote path whose resolve fails at upload time, the
creation protocol walks the directory segments in order from the
repository root, descending into existing child folders found by exact
name among immediate children, issues exactly one `createFolder` per
missing segment and zero for existing segments, and creates the document
named after the final filename under the last folder with the local
bytes (so the full path then resolves to that document). -/
theorem c3_creation_protocol (root : List Entry) (name : String) (B : List Byte)
    (hmiss : resolveSegs (pathSegs name) root = none)
    (hfn : afterLastSlash name.data ≠ [])
    (hok : (CmisFile.upload root name B).err = none) :
    (CmisFile.upload root name B).folderCreates
        = (dirSegsOf name).length - existingPrefixLen (dirSegsOf name) root
    ∧ resolveSegs (pathSegs name) (CmisFile.upload root name B).root
        = some (Entry.document (fileNameOf name) B)
    ∧ (CmisFile.upload root name B).objUpd
        = some (Entry.document (fileNameOf name) B) := by
  have hget : CmisStorage.get_object root name
      = Except.error (PyErr.fileNotFound name) := by
    rw [get_object_eq, hmiss]
  cases hcw : createWalk B (fileNameOf name) (dirSegsOf name) root with
  | error e =>
      have hbad : (CmisFile.upload root name B).err = some e := by
        simp only [CmisFile.upload, hget, hcw]
      rw [hbad] at hok
      exact Option.noConfusion hok
  | ok p =>
      obtain ⟨root', k⟩ := p
      have hmiss' : resolveSegs (dirSegsOf name ++ [fileNameOf name]) root = none := by
        rw [← pathSegs_decomp name hfn]
        exact hmiss
      obtain ⟨hk, hres'⟩ :=
        createWalk_found B (fileNameOf name) (dirSegsOf name) root hmiss' root' k hcw
      have hup : CmisFile.upload root name B
          = { root := root', objUpd := some (Entry.document (fileNameOf name) B),
              err := none, folderCreates := k } := by
        simp only [CmisFile.upload, hget, hcw]
      rw [hup]
      refine ⟨hk, ?_, rfl⟩
      rw [pathSegs_decomp name hfn]
      exact hres'

/-- Witness for C3 at a concrete input: the store already has folder
`a`; uploading to `/a/b/c.txt` reuses `a`, creates exactly one folder
(`b`), and creates document `c.txt` with the bytes. -/
theorem c3_creation_protocol_witness :
    (CmisFile.upload [Entry.folder "a" []] "/a/b/c.txt" [7]).folderCreates
        = (dirSegsOf "/a/b/c.txt").length
          - existingPrefixLen (dirSegsOf "/a/b/c.txt") [Entry.folder "a" []]
    ∧ resolveSegs (pathSegs "/a/b/c.txt")
          (CmisFile.upload [Entry.folder "a" []] "/a/b/c.txt" [7]).root
        = some (Entry.document (fileNameOf "/a/b/c.txt") [7])
    ∧ (CmisFile.upload [Entry.folder "a" []] "/a/b/c.txt" [7]).objUpd
        = some (Entry.document (fileNameOf "/a/b/c.txt") [7]) :=
  c3_creation_protocol [Entry.folder "a" []] "/a/b/c.txt" [7] rfl
    (by decide) rfl

/-- C8: calling close a second time after a completed close is a no-op:
it never raises, never performs a second upload, and never performs a
second temp-directory removal (the state and the repository are
untouched). -/
theorem c8_close_idempotent (root : List Entry) (st : FileSt) :
    CmisFile.close (CmisFile.close root st).root (CmisFile.close root st).st
      = { root := (CmisFile.close root st).root,
          st := (CmisFile.close root st).st,
          err := none, resolves := 0, uploads := 0, rmtrees := 0 } := by
  have hclosed : (CmisFile.close root st).st.streamClosed = true := by
    by_cases h1 : st.streamClosed
    · simp [CmisFile.close, h1]
    · by_cases h2 : st.has_changed
      · cases hu : (CmisFile.upload root st.name st.localBytes).err <;>
          cases ho : (CmisFile.upload root st.name st.localBytes).objUpd <;>
          simp [CmisFile.close, h1, h2, hu, ho]
      · simp [CmisFile.close, h1, h2]
  generalize hro : (CmisFile.close root st).root = r2 at hclosed ⊢
  generalize hso : (CmisFile.close root st).st = s2 at hclosed ⊢
  simp [CmisFile.close, hclosed]

/-- C9: `delete` raises `FileNotFoundError` carrying the path both when
the path does not resolve and when the repository's deletion call
reports the object already gone via a `RuntimeException`. -/
theorem c9_delete_not_found (root : List Entry) (name : String) (av : Bool) :
    (resolveSegs (pathSegs name) root = none →
      ∀ d, CmisStorage.delete root name av d
        = Except.error (PyErr.fileNotFound name))
    ∧ (∀ e, resolveSegs (pathSegs name) root = some e →
      CmisStorage.delete root name av (DelOutcome.runtimeExc RTCause.alreadyGone)
        = Except.error (PyErr.fileNotFound name)) := by
  constructor
  · intro h d
    have hget : CmisStorage.get_object root name
        = Except.error (PyErr.fileNotFound name) := by
      rw [get_object_eq, h]
    simp [CmisStorage.delete, hget]
  · intro e h
    have hget : CmisStorage.get_object root name = Except.ok e := by
      rw [get_object_eq, h]
    simp [CmisStorage.delete, hget]

/-- Witness for C9 at concrete inputs: deleting a never-existing path,
and deleting a path whose object the server already removed. -/
theorem c9_delete_not_found_witness :
    CmisStorage.delete [] "some_file.txt" false DelOutcome.ok
      = Except.error (PyErr.fileNotFound "some_file.txt")
    ∧ CmisStorage.delete [Entry.document "some_file.txt" [1]] "some_file.txt"
        false (DelOutcome.runtimeExc RTCause.alreadyGone)
      = Except.error (PyErr.fileNotFound "some_file.txt") :=
  ⟨(c9_delete_not_found [] "some_file.txt" false).1 rfl DelOutcome.ok,
   (c9_delete_not_found [Entry.document "some_file.txt" [1]] "some_file.txt"
      false).2 (Entry.document "some_file.txt" [1]) rfl⟩

/-- C10: every `RuntimeException` raised by the repository's deletion
call — whatever its cause — makes `delete` raise
`FileNotFoundError(path)`: the except clause does not inspect the
failure, so non-absence runtime failures are also reported as not-found
rather than propagated unmodified. -/
theorem c10_delete_runtime_collapsed (root : List Entry) (name : String)
    (av : Bool) (e : Entry) (cause : RTCause)
    (h : resolveSegs (pathSegs name) root = some e) :
    CmisStorage.delete root name av (DelOutcome.runtimeExc cause)
      = Except.error (PyErr.fileNotFound name) := by
  have hget : CmisStorage.get_object root name = Except.ok e := by
    rw [get_object_eq, h]
  simp [CmisStorage.delete, hget]

/-- Witness for C10 at a concrete input: a runtime failure whose cause is
not "already gone" is still reported as `FileNotFoundError`. -/
theorem c10_delete_runtime_collapsed_witness :
    CmisStorage.delete [Entry.document "f.txt" [1]] "f.txt" false
        (DelOutcome.runtimeExc RTCause.otherCause)
      = Except.error (PyErr.fileNotFound "f.txt") :=
  c10_delete_runtime_collapsed [Entry.document "f.txt" [1]] "f.txt" false
    (Entry.document "f.txt" [1]) RTCause.otherCause rfl

/-- C6: opening in a write-from-start mode (a mode with `'w'` and
neither `'r'` nor `'a'`) performs no remote resolve at open, and closing
a mutated, still-open handle performs exactly one remote resolve
attempt. -/
theorem c6_resolve_counts (root : List Entry) (name mode : String) (st : FileSt) :
    ((modeHas mode 'w' = true → modeHas mode 'r' = false →
        modeHas mode 'a' = false →
        (CmisStorage.openFile root name mode).2 = 0))
    ∧ (st.has_changed = true → st.streamClosed = false →
        (CmisFile.close root st).resolves = 1) := by
  constructor
  · intro _ hr ha
    rw [openFile_no_download root name mode hr ha]
  · intro h2 h1
    exact close_changed_resolves root st h1 h2

/-- Witness for C6 at concrete inputs: mode `"w"` resolves nothing at
open; closing a written handle resolves exactly once. -/
theorem c6_resolve_counts_witness :
    (CmisStorage.openFile [] "/x.txt" "w").2 = 0
    ∧ (CmisFile.close []
        { name := "/x.txt", mode := "w", cmis_object := none,
          cmis_obj := none, has_changed := true, localBytes := [1],
          pos := 1, streamClosed := false,
          tempDirPresent := true }).resolves = 1 :=
  ⟨(c6_resolve_counts [] "/x.txt" "w"
      { name := "/x.txt", mode := "w", cmis_object := none,
        cmis_obj := none, has_changed := true, localBytes := [1],
        pos := 1, streamClosed := false, tempDirPresent := true }).1
      rfl rfl rfl,
   (c6_resolve_counts [] "/x.txt" "w"
      { name := "/x.txt", mode := "w", cmis_object := none,
        cmis_obj := none, has_changed := true, localBytes := [1],
        pos := 1, streamClosed := false, tempDirPresent := true }).2
      rfl rfl⟩

/-- C5: for a missing remote path, opening in a mode with `'r'` and
without `'a'` raises `FileNotFoundError` carrying the normalized path,
while opening in an append mode succeeds, sets `has_changed`, and a
subsequent write and close creates the remote document named after the
path's final filename with the written bytes. -/
theorem c5_missing_path (root : List Entry) (name mode : String)
    (hres : resolveSegs (pathSegs (normalizeName name)) root = none) :
    (modeHas mode 'r' = true → modeHas mode 'a' = false →
      (CmisStorage.openFile root name mode).1
        = Except.error (PyErr.fileNotFound (normalizeName name)))
    ∧ (modeHas mode 'a' = true →
      ∃ st, (CmisStorage.openFile root name mode).1 = Except.ok st
        ∧ st.has_changed = true
        ∧ ∀ B, afterLastSlash (normalizeName name).data ≠ [] →
            (CmisFile.close root (CmisFile.write st B)).err = none →
            resolveSegs (pathSegs (normalizeName name))
                (CmisFile.close root (CmisFile.write st B)).root
              = some (Entry.document (fileNameOf (normalizeName name)) B)) := by
  constructor
  · intro hr ha
    rw [openFile_read_missing root name mode hr ha hres]
  · intro ha
    refine ⟨{ name := normalizeName name, mode := mode, cmis_object := none,
              cmis_obj := none, has_changed := true,
              localBytes := [], pos := 0,
              streamClosed := false, tempDirPresent := true }, ?_, rfl, ?_⟩
    · rw [openFile_append_missing root name mode ha hres]
    · intro B hfn hclose
      have hc2 := close_changed_err root
        (CmisFile.write
          { name := normalizeName name, mode := mode, cmis_object := none,
            cmis_obj := none, has_changed := true,
            localBytes := [], pos := 0,
            streamClosed := false, tempDirPresent := true } B) rfl rfl
      have hcr := close_changed_root root
        (CmisFile.write
          { name := normalizeName name, mode := mode, cmis_object := none,
            cmis_obj := none, has_changed := true,
            localBytes := [], pos := 0,
            streamClosed := false, tempDirPresent := true } B) rfl rfl
      have hlb : (CmisFile.write
          { name := normalizeName name, mode := mode, cmis_object := none,
            cmis_obj := none, has_changed := true,
            localBytes := [], pos := 0,
            streamClosed := false, tempDirPresent := true } B).localBytes = B :=
        write_localBytes_fresh _ B rfl
      simp only [hc2, write_name, hlb] at hclose
      simp only [hcr, write_name, hlb]
      exact upload_creates root (normalizeName name) B hres hfn hclose

/-- Witness for C5 at concrete inputs: reading a missing `/n.txt` raises;
appending to it succeeds, and writing two bytes then closing creates the
document. -/
theorem c5_missing_path_witness :
    ((CmisStorage.openFile [] "n.txt" "r").1
        = Except.error (PyErr.fileNotFound (normalizeName "n.txt")))
    ∧ (∃ st, (CmisStorage.openFile [] "n.txt" "a").1 = Except.ok st
        ∧ st.has_changed = true
        ∧ ∀ B, afterLastSlash (normalizeName "n.txt").data ≠ [] →
            (CmisFile.close [] (CmisFile.write st B)).err = none →
            resolveSegs (pathSegs (normalizeName "n.txt"))
                (CmisFile.close [] (CmisFile.write st B)).root
              = some (Entry.document (fileNameOf (normalizeName "n.txt")) B)) :=
  ⟨(c5_missing_path [] "n.txt" "r" rfl).1 rfl rfl,
   (c5_missing_path [] "n.txt" "a" rfl).2 rfl⟩

/-- C4: round trip — writing bytes `B` to a handle opened at `P` in a
write-from-start mode, closing it (upload raising nothing), then opening
`P` in a read mode and reading yields exactly `B`, the remote store
being modelled as faithfully storing and returning the uploaded
bytes. -/
theorem c4_round_trip (root : List Entry) (name wmode rmode : String)
    (B : List Byte) (st : FileSt)
    (hww : modeHas wmode 'w' = true)
    (hwr : modeHas wmode 'r' = false) (hwa : modeHas wmode 'a' = false)
    (hrr : modeHas rmode 'r' = true) (hra : modeHas rmode 'a' = false)
    (hfn : afterLastSlash (normalizeName name).data ≠ [])
    (hopen : (CmisStorage.openFile root name wmode).1 = Except.ok st)
    (hclose : (CmisFile.close root (CmisFile.write st B)).err = none) :
    ∃ st2,
      (CmisStorage.openFile
          (CmisFile.close root (CmisFile.write st B)).root name rmode).1
        = Except.ok st2
      ∧ (CmisFile.read st2).1 = B := by
  rw [openFile_no_download root name wmode hwr hwa] at hopen
  injection hopen with hst
  subst hst
  have hc2 := close_changed_err root
    (CmisFile.write
      { name := normalizeName name, mode := wmode, cmis_object := none,
        cmis_obj := none, has_changed := modeHas wmode 'w',
        localBytes := [], pos := 0,
        streamClosed := false, tempDirPresent := true } B) rfl rfl
  have hcr := close_changed_root root
    (CmisFile.write
      { name := normalizeName name, mode := wmode, cmis_object := none,
        cmis_obj := none, has_changed := modeHas wmode 'w',
        localBytes := [], pos := 0,
        streamClosed := false, tempDirPresent := true } B) rfl rfl
  have hlb : (CmisFile.write
      { name := normalizeName name, mode := wmode, cmis_object := none,
        cmis_obj := none, has_changed := modeHas wmode 'w',
        localBytes := [], pos := 0,
        streamClosed := false, tempDirPresent := true } B).localBytes = B :=
    write_localBytes_fresh _ B rfl
  simp only [hc2, write_name, hlb] at hclose
  obtain ⟨n, hres2⟩ := upload_ok_resolve root (normalizeName name) B hfn hclose
  have hsd : (modeHas rmode 'r' || modeHas rmode 'a') = true := by
    rw [hrr]
    rfl
  refine ⟨{ name := normalizeName name, mode := rmode, cmis_object := none,
            cmis_obj := some (Entry.document n B),
            has_changed := modeHas rmode 'w',
            localBytes := B,
            pos := if modeHas rmode 'a' then B.length else 0,
            streamClosed := false, tempDirPresent := true }, ?_, ?_⟩
  · simp only [hcr, write_name, hlb]
    rw [openFile_download_document
      (CmisFile.upload root (normalizeName name) B).root name rmode n B hsd hres2]
  · simp [CmisFile.read, hra]

/-- Witness for C4 at concrete inputs: bytes `[104, 105]` written to
`/a/b/c.txt` in mode `"w"` on an empty store are read back in mode
`"r"`. -/
theorem c4_round_trip_witness :
    ∃ st2,
      (CmisStorage.openFile
          (CmisFile.close []
            (CmisFile.write
              { name := "/a/b/c.txt", mode := "w", cmis_object := none,
                cmis_obj := none, has_changed := true, localBytes := [],
                pos := 0, streamClosed := false, tempDirPresent := true }
              [104, 105])).root
          "/a/b/c.txt" "r").1
        = Except.ok st2
      ∧ (CmisFile.read st2).1 = [104, 105] :=
  c4_round_trip [] "/a/b/c.txt" "w" "r" [104, 105]
    { name := "/a/b/c.txt", mode := "w", cmis_object := none,
      cmis_obj := none, has_changed := true, localBytes := [],
      pos := 0, streamClosed := false, tempDirPresent := true }
    rfl rfl rfl rfl rfl (by decide) rfl rfl

/-- C7 counterexample: the claim that the derived local temp path always
lies strictly inside the private temp directory fails for the remote
path `"/.."`: `os.path.basename` keeps the `".."` segment, so the temp
file path resolves to the parent of the temp directory. -/
theorem c7_counterexample :
    ¬ strictlyInside ["tmp", "tmpsiilo"]
        (resolvedTempPath ["tmp", "tmpsiilo"] "/..") := by
  intro h
  obtain ⟨hp, -⟩ := h
  obtain ⟨t, ht⟩ := hp
  have h2 : resolvedTempPath ["tmp", "tmpsiilo"] "/.." = ["tmp"] := rfl
  have h3 : normSegs ["tmp", "tmpsiilo"] = ["tmp", "tmpsiilo"] := rfl
  rw [h2, h3] at ht
  have := congrArg List.length ht
  simp at this

/-- C7 (amended): for every remote path whose basename (after
leading-slash normalization) is not empty, `"."` or `".."`, the local
temp file path derived from it lies strictly inside the handle's private
temporary directory, because only the basename of the remote path is
used to name the local file. -/
theorem c7_inside_temp_dir (T : List String) (name : String)
    (h0 : basenameOf (normalizeName name) ≠ "")
    (h1 : basenameOf (normalizeName name) ≠ ".")
    (h2 : basenameOf (normalizeName name) ≠ "..") :
    strictlyInside T (resolvedTempPath T name) := by
  unfold strictlyInside resolvedTempPath tempFilePathSegs
  rw [normSegs_append_normal T _ h0 h1 h2]
  constructor
  · exact List.prefix_append (normSegs T) [basenameOf (normalizeName name)]
  · intro hEq
    have := congrArg List.length hEq
    simp at this

/-- Witness for the amended C7 at a concrete input: the temp file for
remote path `"a.txt"` sits strictly inside the temp directory. -/
theorem c7_inside_temp_dir_witness :
    strictlyInside ["tmp", "tmpsiilo"]
      (resolvedTempPath ["tmp", "tmpsiilo"] "a.txt") :=
  c7_inside_temp_dir ["tmp", "tmpsiilo"] "a.txt"
    (by decide) (by decide) (by decide)

end Siilo
